import Mathlib

/-!
Verification of the buffered append-log writer (`app/lib/BlobWriter.py`),
the tenant registry (`app/lib/tenant_connect/manager_blob.py`) and the
dispatcher (`app/blob_data_handler.py`).

Shallow embedding conventions:
* A Python dict-shaped telemetry record is opaque to the writer except for
  the two accesses the code performs (`item['data']['type']` and
  `item['meta']['timestamp']`) and its verbatim JSON serialization
  (`json.dumps(item)`).  A `Record` therefore carries the two observable
  fields as `Option String` (`none` models a missing key, which raises
  `KeyError` in Python) plus its serialization `dumps` as an opaque string.
* Python exceptions are modelled with `Except Err`.  Code that swallows an
  exception (`try`/`except` with logging) returns normally and records a
  `logError` event.
* The Azure blob backend is modelled by `Env`: the set of existing blob
  names plus oracles saying whether each storage call succeeds.  All
  storage interactions are recorded in a trace of `Event`s.
* `queue.Queue` is FIFO; the buffer is a `List Record` where
  `message_handler` appends at the tail and `clear_buffer` drains the whole
  list in insertion order.
-/

namespace BlobSpec

/-- An inbound telemetry record: the two fields the writer reads
(`data.type`, `meta.timestamp`; `none` = key missing) and its verbatim
JSON serialization (opaque, the writer never inspects it). -/
structure Record where
  dataType : Option String
  metaTimestamp : Option String
  dumps : String
deriving DecidableEq

/-- Python exceptions that can escape the functions under study. -/
inductive Err where
  | keyError (msg : String)
  | indexError
deriving DecidableEq

/-- The processed partition descriptor built by `process_input_array`:
the dict `{"type": type, "date": date, "time": time}` (BlobWriter.py:164). -/
structure PartKey where
  type : String
  date : String
  time : String
deriving DecidableEq

instance {ε α : Type} [DecidableEq ε] [DecidableEq α] : DecidableEq (Except ε α) := fun x y =>
  match x, y with
  | .ok a, .ok b =>
    if h : a = b then .isTrue (by rw [h]) else .isFalse (by intro hc; cases hc; exact h rfl)
  | .error a, .error b =>
    if h : a = b then .isTrue (by rw [h]) else .isFalse (by intro hc; cases hc; exact h rfl)
  | .ok _, .error _ => .isFalse (by intro hc; cases hc)
  | .error _, .ok _ => .isFalse (by intro hc; cases hc)

/-- `item['data']['type']` — raises `KeyError` when absent. -/
def getDataType (r : Record) : Except Err String :=
  match r.dataType with
  | some t => .ok t
  | none => .error (.keyError "type")

/-- `item['meta']['timestamp']` — raises `KeyError` when absent. -/
def getMetaTimestamp (r : Record) : Except Err String :=
  match r.metaTimestamp with
  | some t => .ok t
  | none => .error (.keyError "timestamp")

/-- Python `str.split(sep)` for a one-character separator, on the
character list of the string.  `''.split('T') = ['']`,
`'aT'.split('T') = ['a','']`, etc. -/
def pySplitChar (sep : Char) : List Char → List (List Char)
  | [] => [[]]
  | c :: rest =>
    if c = sep then [] :: pySplitChar sep rest
    else
      match pySplitChar sep rest with
      | [] => [[c]]
      | h :: t => (c :: h) :: t

/-- Python `str.replace('-', '')`: drop every dash. -/
def dropDashes (l : List Char) : List Char := l.filter (fun c => c ≠ '-')

/-- The timestamp/type extraction performed identically at
BlobWriter.py:153-157 (`process_input_array`) and BlobWriter.py:172-176
(`filter_by_type_and_date`):
`date_parts = logged_at.split('T')`;
`date = date_parts[0].replace('-','')`;
`time = date_parts[1].split(':')[0]`.
`date_parts[1]` raises `IndexError` when the timestamp has no `'T'`. -/
def parseKey (r : Record) : Except Err PartKey :=
  match getDataType r with
  | .error e => .error e
  | .ok ty =>
    match getMetaTimestamp r with
    | .error e => .error e
    | .ok logged_at =>
      match pySplitChar 'T' logged_at.toList with
      | datePart :: timePart :: _ =>
        let date := String.mk (dropDashes datePart)
        let time := String.mk ((pySplitChar ':' timePart).headD [])
        .ok ⟨ty, date, time⟩
      | _ => .error .indexError

/-- The dedup identifier `f"{type}-{date}-{time}"` (BlobWriter.py:160). -/
def mkUid (k : PartKey) : String := k.type ++ "-" ++ k.date ++ "-" ++ k.time

/-- Loop body of `process_input_array` (BlobWriter.py:148-167): walk the
input, parse each record's key, and keep the first occurrence of every
`unique_id`, in encounter order. `seen` is the `seen` set, `acc` the
`processed_array`. -/
def processGo : List Record → List String → List PartKey → Except Err (List PartKey)
  | [], _, acc => .ok acc
  | r :: rest, seen, acc =>
    match parseKey r with
    | .error e => .error e
    | .ok k =>
      if seen.elem (mkUid k) then processGo rest seen acc
      else processGo rest (mkUid k :: seen) (acc ++ [k])

/-- `process_input_array` (BlobWriter.py:148-167). -/
def process_input_array (input_array : List Record) : Except Err (List PartKey) :=
  processGo input_array [] []

/-- Loop body of `filter_by_type_and_date` (BlobWriter.py:169-183): keep
the records whose extracted `(type, date, time)` equals the given triple,
in input order; a parse failure raises out of the loop. -/
def filterGo (t d h : String) : List Record → Except Err (List Record)
  | [] => .ok []
  | r :: rest =>
    match parseKey r with
    | .error e => .error e
    | .ok k =>
      match filterGo t d h rest with
      | .error e => .error e
      | .ok tail =>
        .ok (if k.type = t ∧ k.date = d ∧ k.time = h then r :: tail else tail)

/-- `filter_by_type_and_date` (BlobWriter.py:169-183). -/
def filter_by_type_and_date (input_array : List Record)
    (type_to_match date_to_match time_to_match : String) : Except Err (List Record) :=
  filterGo type_to_match date_to_match time_to_match input_array

/-- Pointwise key extraction of a snapshot (helper for stating
well-formedness: every record parses, with the given key list). -/
def parseKeys : List Record → Except Err (List PartKey)
  | [] => .ok []
  | r :: rest =>
    match parseKey r with
    | .error e => .error e
    | .ok k =>
      match parseKeys rest with
      | .error e => .error e
      | .ok ks => .ok (k :: ks)

/-! ### Storage backend model -/

/-- The Azure blob backend as seen through the writer's three calls:
the existing blob names (`list_blobs`), and oracles telling whether a
given `create_append_blob` / `append_block` call succeeds.  Only
`existingBlobs` is mutated by the code under study; the oracle fields are
configuration and never change. -/
structure Env where
  existingBlobs : List String
  listOk : Bool
  createOk : String → Bool
  appendOk : String → String → Bool

/-- Observable storage interactions and log lines of one flush, in order.
`drained` marks the buffer swap performed by `clear_buffer` (the one
mutation of the buffer during a flush); `appended`/`appendFailed` are the
individual `append_block` calls, carrying the record slice
(`data[i:i+packet_size]`) and the serialized payload actually sent. -/
inductive Event where
  | drained (snapshot : List Record)
  | logInfo (msg : String)
  | logError (msg : String)
  | created (blob_name : String)
  | createFailed (blob_name : String)
  | appended (blob_name : String) (packet : List Record) (payload : String)
  | appendFailed (blob_name : String) (packet : List Record) (payload : String)
deriving DecidableEq

/-- `list_blob_names` (BlobWriter.py:71-80): returns the names, or `[]`
when the listing call fails (the exception is caught and printed). -/
def list_blob_names (env : Env) : List String :=
  if env.listOk then env.existingBlobs else []

/-- The method `create_append_blob` (BlobWriter.py:82-92): create the
blob when it is not listed; any exception is caught and printed, so the
method never raises. -/
def create_append_blob (env : Env) (blob_name : String) : Env × List Event :=
  if (list_blob_names env).elem blob_name then (env, [])
  else if env.createOk blob_name then
    ({ env with existingBlobs := blob_name :: env.existingBlobs }, [.created blob_name])
  else (env, [.createFailed blob_name])

/-- `self.max_packet_size_bytes = 3 * 1024 * 1024` (BlobWriter.py:47). -/
def max_packet_size_bytes : Nat := 3 * 1024 * 1024

/-- `len(json.dumps(record).encode('utf-8'))`: the UTF-8 byte size of the
record's serialization. -/
def dumpsBytes (r : Record) : Nat := r.dumps.utf8ByteSize

/-- `packet_size = math.floor(max_packet_size_bytes / len(json.dumps(data[0]).encode('utf-8')))`
(BlobWriter.py:110).  Note the code imposes no lower bound: a first record
larger than the ceiling yields `0`. -/
def packetSize (first : Record) : Nat := max_packet_size_bytes / dumpsBytes first

/-- Python `sep.join(strings)`. -/
def pyJoin (sep : String) : List String → String
  | [] => ""
  | [s] => s
  | s :: rest => s ++ sep ++ pyJoin sep rest

/-- `'\n'.join(json.dumps(item) for item in packet_data) + '\n'`
(BlobWriter.py:119). -/
def packet_payload (packet : List Record) : String :=
  pyJoin "\n" (packet.map (fun r => r.dumps)) ++ "\n"

/-- The slices `data[i:i+ps]` for `i in range(0, len(data), ps)`.
Only evaluated with `ps ≥ 1`: the code reaches the slicing loop only
after ruling out `packet_size = 0` (a zero step makes `range` raise
`ValueError`, handled separately in `append_data_to_blob`). -/
def sliceGo {α : Type} (ps : Nat) : Nat → List α → List (List α)
  | _, [] => []
  | 0, _ :: _ => []
  | fuel + 1, a :: rest => (a :: rest.take (ps - 1)) :: sliceGo ps fuel (rest.drop (ps - 1))

/-- See `sliceGo`; the fuel (each step consumes at least the head element)
makes the recursion structural. -/
def sliceChunks {α : Type} (ps : Nat) (l : List α) : List (List α) :=
  sliceGo ps l.length l

/-- The blob-existence check and direct `blob_client.create_append_blob()`
at BlobWriter.py:102-103.  This create is *not* individually guarded: if
it raises, the outer handler at BlobWriter.py:126 catches it and the whole
call ends before any packet is appended — hence `none` on failure. -/
def ensure_blob (env : Env) (blob_name : String) : Option (Env × List Event) :=
  if (list_blob_names env).elem blob_name then some (env, [])
  else if env.createOk blob_name then
    some ({ env with existingBlobs := blob_name :: env.existingBlobs }, [.created blob_name])
  else none

/-- `append_data_to_blob` (BlobWriter.py:94-127).  Branches:
* the unguarded create raises → outer handler logs, nothing appended;
* `data` empty or first record larger than the ceiling → `packet_size` is
  `0`, `range(0, len(data), 0)` raises `ValueError` → outer handler logs,
  nothing appended (an empty `dumps` likewise raises `ZeroDivisionError`
  with the same observable outcome, folded into the same branch);
* otherwise one `append_block` per slice; a failed append is logged by the
  inner handler (BlobWriter.py:123-124) and the loop continues. -/
def appendCore (env1 : Env) (blob_name : String) (evs1 : List Event) :
    List Record → Env × List Event
  | [] => (env1, evs1 ++ [.logError ("append-abort:range:" ++ blob_name)])
  | first :: rest =>
    if packetSize first = 0 then
      (env1, evs1 ++ [.logError ("append-abort:range:" ++ blob_name)])
    else
      (env1, evs1 ++ (sliceChunks (packetSize first) (first :: rest)).map (fun packet =>
        if env1.appendOk blob_name (packet_payload packet) = true then
          Event.appended blob_name packet (packet_payload packet)
        else Event.appendFailed blob_name packet (packet_payload packet)))

/-- See `appendCore` for the packet-size computation and slicing loop
(BlobWriter.py:105-125). -/
def append_data_to_blob (env : Env) (blob_name : String) (data : List Record) :
    Env × List Event :=
  match ensure_blob env blob_name with
  | none => (env, [.logError ("append-abort:create:" ++ blob_name)])
  | some pr => appendCore pr.1 blob_name pr.2 data

/-! ### Writer state and flush -/

/-- The mutable writer fields the claims are about (BlobWriter.py:41-46):
the FIFO buffer, the `running` flag, and whether a timer is pending. -/
structure WriterState where
  buffer : List Record
  running : Bool
  timer : Bool
deriving DecidableEq

/-- `clear_buffer` (BlobWriter.py:139-143): drain the FIFO queue into a
list, leaving the buffer empty. -/
def clear_buffer (s : WriterState) : List Record × WriterState :=
  (s.buffer, { s with buffer := [] })

/-- `message_handler` (BlobWriter.py:145-146): `self.buffer.put(message)`. -/
def message_handler (s : WriterState) (message : Record) : WriterState :=
  { s with buffer := s.buffer ++ [message] }

/-- `f"{data['type']}.{data['date']}.{data['time']}.fd"` (BlobWriter.py:134). -/
def target_name (k : PartKey) : String :=
  k.type ++ "." ++ k.date ++ "." ++ k.time ++ ".fd"

/-- The per-group body of the loop in `write_buffer_to_blob`
(BlobWriter.py:132-137): filter the snapshot (may raise, ending the
flush), log, `create_append_blob`, `append_data_to_blob`. -/
def writeGroups (env : Env) (tmp : List Record) :
    List PartKey → Except Err Unit × Env × List Event
  | [] => (.ok (), env, [])
  | g :: gs =>
    match filter_by_type_and_date tmp g.type g.date g.time with
    | .error e => (.error e, env, [])
    | .ok file_data =>
      let file_name := target_name g
      let c := create_append_blob env file_name
      let a := append_data_to_blob c.1 file_name file_data
      let w := writeGroups a.1 tmp gs
      (w.1, w.2.1, Event.logInfo ("Writing blob: " ++ file_name) :: c.2 ++ a.2 ++ w.2.2)

/-- `write_buffer_to_blob` (BlobWriter.py:129-137): drain, partition,
write each group.  A parse failure in `process_input_array` (or in a
`filter_by_type_and_date` call) propagates, but the buffer has already
been emptied by `clear_buffer`. -/
def write_buffer_to_blob (env : Env) (s : WriterState) :
    Except Err Unit × Env × WriterState × List Event :=
  let p := clear_buffer s
  match process_input_array p.1 with
  | .error e => (.error e, env, p.2, [Event.drained p.1])
  | .ok groups =>
    let w := writeGroups env p.1 groups
    (w.1, w.2.1, p.2, Event.drained p.1 :: w.2.2)

/-- `stop` (BlobWriter.py:62-69): `running = False`, cancel the timer,
then one synchronous `write_buffer_to_blob`. -/
def stop (env : Env) (s : WriterState) :
    Except Err Unit × Env × WriterState × List Event :=
  write_buffer_to_blob env { s with running := false, timer := false }

/-! ### Registry and dispatcher -/

/-- Python dict access on an association list with unique keys: the value
mapped to `tid`, or `none` when `tid not in` the dict. -/
def dictGet (tid : String) : List (String × WriterState) → Option WriterState
  | [] => none
  | (k, v) :: rest => if k = tid then some v else dictGet tid rest

/-- `dispatch_blob_message` (blob_data_handler.py:20-24): if the tenant id
is a key of `blob_writers`, forward to that writer's `message_handler`
(mutating that writer in place); otherwise raise `KeyError`.  The writer
mapping is an association list `tenantId -> WriterState`. -/
def dispatch_blob_message (writers : List (String × WriterState))
    (tenant_id : String) (message : Record) :
    Except Err Unit × List (String × WriterState) :=
  match dictGet tenant_id writers with
  | some _ =>
    (.ok (), writers.map (fun p =>
      if p.1 = tenant_id then (p.1, message_handler p.2 message) else p))
  | none => (.error (.keyError ("No BlobWriter for tenant " ++ tenant_id)), writers)

/-! ### Enqueue/flush interleavings -/

/-- One producer or flush action on a writer's buffer. -/
inductive BufOp where
  | enq (r : Record)
  | flush
deriving DecidableEq

/-- Run a sequence of enqueues (`message_handler`) and drains
(`clear_buffer`); returns the final state and the drained snapshots in
flush order. -/
def runWriterOps : List BufOp → WriterState → WriterState × List (List Record)
  | [], s => (s, [])
  | .enq r :: ops, s => runWriterOps ops (message_handler s r)
  | .flush :: ops, s =>
    let p := clear_buffer s
    let q := runWriterOps ops p.2
    (q.1, p.1 :: q.2)

/-- The records enqueued by a sequence of operations, in order. -/
def enqueuedOf : List BufOp → List Record
  | [] => []
  | .enq r :: ops => r :: enqueuedOf ops
  | .flush :: ops => enqueuedOf ops

/-! ### Observers over traces -/

/-- The blob name a storage event addresses (`none` for log lines and the
drain marker). -/
def eventName : Event → Option String
  | .created n => some n
  | .createFailed n => some n
  | .appended n _ _ => some n
  | .appendFailed n _ _ => some n
  | _ => none

/-- Whether an event is the buffer drain performed by `clear_buffer`. -/
def isDrained : Event → Bool
  | .drained _ => true
  | _ => false

/-- Whether an event is an `append_block` call (successful or failed). -/
def isAppendCall : Event → Bool
  | .appended _ _ _ => true
  | .appendFailed _ _ _ => true
  | _ => false

/-- The record slices passed to `append_block` calls addressed to `name`,
in call order (failed calls included: the slice was sent either way). -/
def packetsFor (name : String) (evs : List Event) : List (List Record) :=
  evs.filterMap (fun ev =>
    match ev with
    | .appended n p _ => if n = name then some p else none
    | .appendFailed n p _ => if n = name then some p else none
    | _ => none)

/-- Specification-side first-seen deduplication with an explicit `seen`
accumulator; used to relate `processGo` to `List.eraseDups`. -/
def fsDedup (seen : List String) : List String → List String
  | [] => []
  | a :: l => if seen.elem a then fsDedup seen l else a :: fsDedup (a :: seen) l

/-! ### Concrete inputs used by witnesses and counterexamples -/

/-- Three well-formed heartbeat records of the same hour (spec §8
scenario). -/
def hb1 : Record := ⟨some "heartbeat", some "2024-01-01T08:00:00", "h1"⟩

def hb2 : Record := ⟨some "heartbeat", some "2024-01-01T08:15:00", "h2"⟩

def hb3 : Record := ⟨some "heartbeat", some "2024-01-01T08:59:59", "h3"⟩

/-- A backend where every call succeeds and no blob exists yet. -/
def envOK : Env := ⟨[], true, fun _ => true, fun _ _ => true⟩

/-- A running writer holding the three heartbeat records. -/
def sHB : WriterState := ⟨[hb1, hb2, hb3], true, true⟩

/-- A record whose `data` dict lacks the `type` key. -/
def badRec : Record := ⟨none, some "2024-01-01T08:00:00", "b"⟩

/-- A writer holding one good record followed by one malformed record. -/
def sBad : WriterState := ⟨[hb1, badRec], true, true⟩

/-- A serialization one byte larger than the 3 MiB packet ceiling. -/
def bigStr : String := String.mk (List.replicate (3 * 1024 * 1024 + 1) 'a')

/-- A well-formed record whose serialization exceeds the packet ceiling. -/
def bigRec : Record := ⟨some "t", some "2024-01-01T08:00:00", bigStr⟩

/-- A record with a one-byte serialization. -/
def tinyRec : Record := ⟨some "t", some "2024-01-01T08:00:00", "t"⟩

/-- A backend where blob `b.fd` already exists and every call succeeds. -/
def envB : Env := ⟨["b.fd"], true, fun _ => true, fun _ _ => true⟩

/-- A backend whose `append_block` always fails; the target blob already
exists. -/
def envFail : Env := ⟨["heartbeat.20240101.08.fd"], true, fun _ => true, fun _ _ => false⟩

/-- Two records whose distinct partition triples `("x","D","a-b")` and
`("x-D","a","b")` collide on the dedup id `"x-D-a-b"` built at
BlobWriter.py:160. -/
def cr1 : Record := ⟨some "x", some "DTa-b:0", "r1"⟩

def cr2 : Record := ⟨some "x-D", some "aTb:0", "r2"⟩

/-- A writer holding the two colliding records. -/
def sCol : WriterState := ⟨[cr1, cr2], true, true⟩

/-- A two-tenant registry: `t1` with an empty buffer, `t2` holding one
record. -/
def regA : List (String × WriterState) :=
  [("t1", ⟨[], true, false⟩), ("t2", ⟨[hb1], false, false⟩)]

/-! ### Lemmas: packet slicing -/

theorem sliceGo_fuel_irrel {α : Type} (ps : Nat) :
    ∀ fuel fuel' (l : List α), l.length ≤ fuel → l.length ≤ fuel' →
      sliceGo ps fuel l = sliceGo ps fuel' l := by
  intro fuel
  induction fuel with
  | zero =>
    intro fuel' l h _
    cases l with
    | nil => cases fuel' <;> rfl
    | cons a rest => simp at h
  | succ n ih =>
    intro fuel' l h h'
    cases l with
    | nil => cases fuel' <;> rfl
    | cons a rest =>
      cases fuel' with
      | zero => simp at h'
      | succ m =>
        simp only [sliceGo]
        have hr : (rest.drop (ps - 1)).length ≤ rest.length := by
          simp [List.length_drop]
        have h1 : (rest.drop (ps - 1)).length ≤ n := by
          simp only [List.length_cons] at h; omega
        have h2 : (rest.drop (ps - 1)).length ≤ m := by
          simp only [List.length_cons] at h'; omega
        rw [ih m (rest.drop (ps - 1)) h1 h2]

theorem sliceChunks_cons {α : Type} (ps : Nat) (a : α) (rest : List α) :
    sliceChunks ps (a :: rest) =
      (a :: rest.take (ps - 1)) :: sliceChunks ps (rest.drop (ps - 1)) := by
  show sliceGo ps (rest.length + 1) (a :: rest) = _
  simp only [sliceGo]
  rw [sliceGo_fuel_irrel ps rest.length (rest.drop (ps - 1)).length (rest.drop (ps - 1))
    (by simp [List.length_drop]) (le_refl _)]
  rfl

/-- Concatenating the slices `data[i:i+ps]` over `range(0, len(data), ps)`
gives back `data`, for any positive step. -/
theorem sliceChunks_join {α : Type} (ps : Nat) (_hps : 1 ≤ ps) :
    ∀ (l : List α), (sliceChunks ps l).flatten = l := by
  have main : ∀ (n : Nat) (l : List α), l.length ≤ n → (sliceChunks ps l).flatten = l := by
    intro n
    induction n with
    | zero =>
      intro l h
      cases l with
      | nil => rfl
      | cons a rest => simp at h
    | succ n ih =>
      intro l h
      cases l with
      | nil => rfl
      | cons a rest =>
        rw [sliceChunks_cons]
        simp only [List.flatten_cons]
        rw [ih (rest.drop (ps - 1)) (by simp only [List.length_cons] at h; simp [List.length_drop]; omega)]
        simp [List.take_append_drop]
  intro l
  exact main l.length l (le_refl _)

/-- Every slice holds at most `ps` records (positive step). -/
theorem sliceChunks_length_le {α : Type} (ps : Nat) (hps : 1 ≤ ps) :
    ∀ (l : List α) c, c ∈ sliceChunks ps l → c.length ≤ ps := by
  have main : ∀ (n : Nat) (l : List α), l.length ≤ n →
      ∀ c, c ∈ sliceChunks ps l → c.length ≤ ps := by
    intro n
    induction n with
    | zero =>
      intro l h c hc
      cases l with
      | nil => simp [sliceChunks, sliceGo] at hc
      | cons a rest => simp at h
    | succ n ih =>
      intro l h c hc
      cases l with
      | nil => simp [sliceChunks, sliceGo] at hc
      | cons a rest =>
        rw [sliceChunks_cons] at hc
        rcases List.mem_cons.mp hc with hc | hc
        · subst hc
          have := List.length_take (ps - 1) rest
          simp only [List.length_cons, this]
          omega
        · exact ih (rest.drop (ps - 1))
            (by simp only [List.length_cons] at h; simp [List.length_drop]; omega) c hc
  intro l
  exact main l.length l (le_refl _)

/-! ### Lemmas: UTF-8 byte sizes -/

theorem utf8Go_append (l1 l2 : List Char) :
    String.utf8ByteSize.go (l1 ++ l2) =
      String.utf8ByteSize.go l1 + String.utf8ByteSize.go l2 := by
  induction l1 with
  | nil => simp [String.utf8ByteSize.go]
  | cons c rest ih =>
    simp only [List.cons_append, String.utf8ByteSize.go, List.append_eq, ih]
    omega

theorem utf8_append (s t : String) :
    (s ++ t).utf8ByteSize = s.utf8ByteSize + t.utf8ByteSize := by
  cases s with
  | mk a =>
    cases t with
    | mk b => exact utf8Go_append a b

theorem utf8_replicate_a (n : Nat) :
    (String.mk (List.replicate n 'a')).utf8ByteSize = n := by
  show String.utf8ByteSize.go (List.replicate n 'a') = n
  induction n with
  | zero => rfl
  | succ n ih =>
    simp only [List.replicate, String.utf8ByteSize.go, ih]
    have : Char.utf8Size 'a' = 1 := by decide
    omega

/-! ### Lemmas: parsing, partitioning, filtering -/

/-- If every record of the snapshot parses, so does each one. -/
theorem parseKeys_all_ok :
    ∀ (l : List Record) (ks : List PartKey), parseKeys l = .ok ks →
      ∀ r ∈ l, ∃ k, parseKey r = .ok k := by
  intro l
  induction l with
  | nil => intro ks _ r hr; simp at hr
  | cons a rest ih =>
    intro ks h r hr
    simp only [parseKeys] at h
    cases ha : parseKey a with
    | error e => rw [ha] at h; cases h
    | ok k =>
      rw [ha] at h
      cases hrest : parseKeys rest with
      | error e => rw [hrest] at h; cases h
      | ok ks' =>
        rcases List.mem_cons.mp hr with rfl | hr
        · exact ⟨k, ha⟩
        · exact ih ks' hrest r hr

/-- A successful `process_input_array` run also means every record
parses. -/
theorem processGo_all_ok :
    ∀ (l : List Record) seen acc gs, processGo l seen acc = .ok gs →
      ∀ r ∈ l, ∃ k, parseKey r = .ok k := by
  intro l
  induction l with
  | nil => intro seen acc gs _ r hr; simp at hr
  | cons a rest ih =>
    intro seen acc gs h r hr
    cases ha : parseKey a with
    | error e => simp only [processGo, ha] at h; cases h
    | ok k =>
      simp only [processGo, ha] at h
      rcases List.mem_cons.mp hr with rfl | hr
      · exact ⟨k, ha⟩
      · split at h <;> exact ih _ _ _ h r hr

/-- If some record of the snapshot is malformed, `processGo` raises. -/
theorem processGo_error_of_bad :
    ∀ (l : List Record), (∃ r ∈ l, ∃ e, parseKey r = .error e) →
      ∀ seen acc, ∃ e', processGo l seen acc = .error e' := by
  intro l
  induction l with
  | nil => rintro ⟨r, hr, _⟩; simp at hr
  | cons a rest ih =>
    rintro ⟨r, hr, e, he⟩ seen acc
    cases ha : parseKey a with
    | error e' => exact ⟨e', by simp only [processGo, ha]⟩
    | ok k =>
      have hrest : ∃ r ∈ rest, ∃ e, parseKey r = .error e := by
        rcases List.mem_cons.mp hr with rfl | hr'
        · rw [ha] at he; cases he
        · exact ⟨r, hr', e, he⟩
      simp only [processGo, ha]
      by_cases hs : List.elem (mkUid k) seen = true
      · rw [if_pos hs]; exact ih hrest seen acc
      · rw [if_neg hs]; exact ih hrest (mkUid k :: seen) (acc ++ [k])

/-- If every record parses, `processGo` succeeds. -/
theorem processGo_ok_of_all :
    ∀ (l : List Record), (∀ r ∈ l, ∃ k, parseKey r = .ok k) →
      ∀ seen acc, ∃ gs, processGo l seen acc = .ok gs := by
  intro l
  induction l with
  | nil => intro _ seen acc; exact ⟨acc, rfl⟩
  | cons a rest ih =>
    intro hall seen acc
    obtain ⟨k, hk⟩ := hall a (List.mem_cons_self a rest)
    have hrest : ∀ r ∈ rest, ∃ k, parseKey r = .ok k :=
      fun r hr => hall r (List.mem_cons_of_mem a hr)
    simp only [processGo, hk]
    by_cases hs : List.elem (mkUid k) seen = true
    · rw [if_pos hs]; exact ih hrest seen acc
    · rw [if_neg hs]; exact ih hrest (mkUid k :: seen) (acc ++ [k])

/-- When every record parses, filtering is `List.filter` by parsed-key
equality, in input order. -/
theorem filterGo_eq_filter (t d h : String) :
    ∀ (l : List Record), (∀ r ∈ l, ∃ k, parseKey r = .ok k) →
      filterGo t d h l = .ok (l.filter (fun r => decide (parseKey r = .ok ⟨t, d, h⟩))) := by
  intro l
  induction l with
  | nil => intro _; rfl
  | cons a rest ih =>
    intro hall
    obtain ⟨k, hk⟩ := hall a (List.mem_cons_self a rest)
    have hrest := fun r hr => hall r (List.mem_cons_of_mem a hr)
    simp only [filterGo, hk, ih hrest, List.filter_cons]
    by_cases hmatch : k.type = t ∧ k.date = d ∧ k.time = h
    · have hkeq : k = ⟨t, d, h⟩ := by cases k; simp_all
      rw [if_pos hmatch]
      simp [hk, hkeq]
    · have hkne : ¬ k = ⟨t, d, h⟩ := by cases k; simp_all
      rw [if_neg hmatch]
      simp [hk, hkne]

/-- `List.eraseDups.loop` in terms of the seen-set recursion `fsDedup`. -/
theorem eraseDupsLoop_eq (l bs : List String) :
    List.eraseDups.loop l bs = bs.reverse ++ fsDedup bs l := by
  induction l generalizing bs with
  | nil => simp [List.eraseDups.loop, fsDedup]
  | cons a rest ih =>
    simp only [List.eraseDups.loop, fsDedup]
    cases hs : bs.elem a with
    | true => simp [ih bs]
    | false => simp [ih (a :: bs)]

/-- `List.eraseDups` keeps the first occurrence of each element, in
first-seen order. -/
theorem eraseDups_eq_fsDedup (l : List String) : l.eraseDups = fsDedup [] l := by
  show List.eraseDups.loop l [] = _
  rw [eraseDupsLoop_eq]
  rfl

/-- The dedup ids of the groups built by `processGo`, given the pointwise
keys of the remaining records. -/
theorem processGo_map_uid :
    ∀ (l : List Record) (ks : List PartKey), parseKeys l = .ok ks →
      ∀ seen acc gs, processGo l seen acc = .ok gs →
        gs.map mkUid = acc.map mkUid ++ fsDedup seen (ks.map mkUid) := by
  intro l
  induction l with
  | nil =>
    intro ks hks seen acc gs hgs
    cases hks
    cases hgs
    simp [fsDedup]
  | cons a rest ih =>
    intro ks hks seen acc gs hgs
    simp only [parseKeys] at hks
    cases ha : parseKey a with
    | error e => rw [ha] at hks; cases hks
    | ok k =>
      rw [ha] at hks
      cases hrest : parseKeys rest with
      | error e => rw [hrest] at hks; cases hks
      | ok ks' =>
        rw [hrest] at hks
        cases hks
        simp only [processGo, ha] at hgs
        simp only [List.map_cons, fsDedup]
        by_cases hs : List.elem (mkUid k) seen = true
        · rw [if_pos hs] at hgs
          rw [if_pos hs]
          exact ih ks' hrest seen acc gs hgs
        · rw [if_neg hs] at hgs
          rw [if_neg hs]
          rw [ih ks' hrest (mkUid k :: seen) (acc ++ [k]) gs hgs]
          simp

/-! ### Lemmas: storage-call traces -/

theorem create_append_blob_events (env : Env) (n : String) :
    ∀ ev ∈ (create_append_blob env n).2, ev = .created n ∨ ev = .createFailed n := by
  intro ev hev
  unfold create_append_blob at hev
  split at hev
  · simp at hev
  · split at hev <;> simp at hev <;> simp [hev]

theorem create_append_blob_cfg (env : Env) (n : String) :
    (create_append_blob env n).1.listOk = env.listOk ∧
    (create_append_blob env n).1.createOk = env.createOk ∧
    (create_append_blob env n).1.appendOk = env.appendOk := by
  unfold create_append_blob
  split
  · exact ⟨rfl, rfl, rfl⟩
  · split <;> exact ⟨rfl, rfl, rfl⟩

theorem ensure_blob_cfg (env : Env) (n : String) (env1 : Env) (evs : List Event)
    (h : ensure_blob env n = some (env1, evs)) :
    env1.listOk = env.listOk ∧ env1.createOk = env.createOk ∧
    env1.appendOk = env.appendOk ∧ (evs = [] ∨ evs = [.created n]) := by
  unfold ensure_blob at h
  split at h
  · cases h; exact ⟨rfl, rfl, rfl, Or.inl rfl⟩
  · split at h
    · cases h; exact ⟨rfl, rfl, rfl, Or.inr rfl⟩
    · cases h

theorem ensure_blob_some_of_createOk (env : Env) (n : String)
    (h : env.createOk n = true) :
    ∃ env1 evs, ensure_blob env n = some (env1, evs) := by
  unfold ensure_blob
  split
  · exact ⟨env, [], rfl⟩
  · exact ⟨_, _, rfl⟩

theorem appendCore_events (env1 : Env) (n : String) (evs1 : List Event)
    (hevs : ∀ x ∈ evs1, x = Event.created n) (data : List Record) :
    ∀ ev ∈ (appendCore env1 n evs1 data).2,
      (∃ m, ev = .logError m) ∨ ev = .created n ∨
      (∃ p pl, ev = .appended n p pl) ∨ (∃ p pl, ev = .appendFailed n p pl) := by
  intro ev hev
  cases data with
  | nil =>
    simp only [appendCore, List.mem_append] at hev
    rcases hev with hev | hev
    · exact Or.inr (Or.inl (hevs ev hev))
    · simp at hev; exact Or.inl ⟨_, hev⟩
  | cons first rest =>
    simp only [appendCore] at hev
    by_cases h0 : packetSize first = 0
    · rw [if_pos h0] at hev
      simp only [List.mem_append] at hev
      rcases hev with hev | hev
      · exact Or.inr (Or.inl (hevs ev hev))
      · simp at hev; exact Or.inl ⟨_, hev⟩
    · rw [if_neg h0] at hev
      simp only [List.mem_append] at hev
      rcases hev with hev | hev
      · exact Or.inr (Or.inl (hevs ev hev))
      · obtain ⟨packet, _, hpk⟩ := List.mem_map.mp hev
        split at hpk
        · exact Or.inr (Or.inr (Or.inl ⟨packet, _, hpk.symm⟩))
        · exact Or.inr (Or.inr (Or.inr ⟨packet, _, hpk.symm⟩))

theorem append_data_to_blob_events (env : Env) (n : String) (data : List Record) :
    ∀ ev ∈ (append_data_to_blob env n data).2,
      (∃ m, ev = .logError m) ∨ ev = .created n ∨
      (∃ p pl, ev = .appended n p pl) ∨ (∃ p pl, ev = .appendFailed n p pl) := by
  intro ev hev
  unfold append_data_to_blob at hev
  cases he : ensure_blob env n with
  | none =>
    rw [he] at hev
    simp at hev
    exact Or.inl ⟨_, hev⟩
  | some pr =>
    rw [he] at hev
    obtain ⟨_, _, _, hevs⟩ := ensure_blob_cfg env n pr.1 pr.2 (by rw [he])
    have hmem1 : ∀ x ∈ pr.2, x = Event.created n := by
      intro x hx
      rcases hevs with h0 | h0 <;> rw [h0] at hx <;> simp at hx
      exact hx
    exact appendCore_events pr.1 n pr.2 hmem1 data ev hev

theorem appendCore_cfg (env1 : Env) (n : String) (evs1 : List Event) (data : List Record) :
    (appendCore env1 n evs1 data).1 = env1 := by
  cases data with
  | nil => rfl
  | cons first rest =>
    simp only [appendCore]
    split <;> rfl

theorem append_data_to_blob_cfg (env : Env) (n : String) (data : List Record) :
    (append_data_to_blob env n data).1.listOk = env.listOk ∧
    (append_data_to_blob env n data).1.createOk = env.createOk ∧
    (append_data_to_blob env n data).1.appendOk = env.appendOk := by
  unfold append_data_to_blob
  cases he : ensure_blob env n with
  | none => exact ⟨rfl, rfl, rfl⟩
  | some pr =>
    obtain ⟨h1, h2, h3, _⟩ := ensure_blob_cfg env n pr.1 pr.2 (by rw [he])
    simp only [appendCore_cfg]
    exact ⟨h1, h2, h3⟩

theorem packetsFor_append (name : String) (a b : List Event) :
    packetsFor name (a ++ b) = packetsFor name a ++ packetsFor name b :=
  List.filterMap_append a b _

theorem packetsFor_nil_of (name : String) (evs : List Event)
    (h : ∀ ev ∈ evs, eventName ev ≠ some name) : packetsFor name evs = [] := by
  apply List.filterMap_eq_nil_iff.mpr
  intro ev hev
  have := h ev hev
  cases ev <;> simp [eventName] at this ⊢ <;> simp [this]

theorem packetsFor_create_append_blob (name : String) (env : Env) (n : String) :
    packetsFor name (create_append_blob env n).2 = [] := by
  apply List.filterMap_eq_nil_iff.mpr
  intro ev hev
  rcases create_append_blob_events env n ev hev with h | h <;> rw [h]

theorem packetsFor_chunk_map (name : String) (env1 : Env) (chunks : List (List Record)) :
    packetsFor name (chunks.map (fun packet =>
      if env1.appendOk name (packet_payload packet) = true then
        Event.appended name packet (packet_payload packet)
      else Event.appendFailed name packet (packet_payload packet))) = chunks := by
  induction chunks with
  | nil => rfl
  | cons c rest ih =>
    simp only [List.map_cons]
    by_cases hap : env1.appendOk name (packet_payload c) = true
    · simp only [packetsFor, List.filterMap_cons] at ih ⊢
      simp [hap, ih]
    · simp only [packetsFor, List.filterMap_cons] at ih ⊢
      simp only [Bool.not_eq_true] at hap
      simp [hap, ih]

theorem packetsFor_appendCore (env1 : Env) (n : String) (evs1 : List Event)
    (hevs : evs1 = [] ∨ evs1 = [.created n]) (first : Record) (rest : List Record)
    (hps : 1 ≤ packetSize first) :
    packetsFor n (appendCore env1 n evs1 (first :: rest)).2 =
      sliceChunks (packetSize first) (first :: rest) := by
  simp only [appendCore]
  rw [if_neg (by omega)]
  rw [packetsFor_append]
  have h1 : packetsFor n evs1 = [] := by
    rcases hevs with h0 | h0 <;> rw [h0] <;> rfl
  rw [h1, packetsFor_chunk_map]
  rfl

theorem packetsFor_append_data_self (env : Env) (n : String) (first : Record)
    (rest : List Record) (hcr : env.createOk n = true) (hps : 1 ≤ packetSize first) :
    packetsFor n (append_data_to_blob env n (first :: rest)).2 =
      sliceChunks (packetSize first) (first :: rest) := by
  obtain ⟨env1, evs1, he⟩ := ensure_blob_some_of_createOk env n hcr
  obtain ⟨_, _, _, hevs⟩ := ensure_blob_cfg env n env1 evs1 he
  unfold append_data_to_blob
  rw [he]
  exact packetsFor_appendCore env1 n evs1 hevs first rest hps

theorem packetsFor_append_data_other (env : Env) (n name : String) (data : List Record)
    (hne : n ≠ name) : packetsFor name (append_data_to_blob env n data).2 = [] := by
  apply packetsFor_nil_of
  intro ev hev
  rcases append_data_to_blob_events env n data ev hev with ⟨m, h⟩ | h | ⟨p, pl, h⟩ | ⟨p, pl, h⟩ <;>
    rw [h] <;> simp [eventName]
  all_goals intro hc; exact hne hc

theorem packetsFor_logInfo_cons (name msg : String) (evs : List Event) :
    packetsFor name (Event.logInfo msg :: evs) = packetsFor name evs := rfl

theorem filter_by_type_and_date_eq (tmp : List Record)
    (hall : ∀ r ∈ tmp, ∃ k, parseKey r = .ok k) (t d h : String) :
    filter_by_type_and_date tmp t d h =
      .ok (tmp.filter (fun r => decide (parseKey r = .ok ⟨t, d, h⟩))) :=
  filterGo_eq_filter t d h tmp hall

theorem writeGroups_events (tmp : List Record) :
    ∀ (gs : List PartKey) (env : Env), ∀ ev ∈ (writeGroups env tmp gs).2.2,
      isDrained ev = false ∧
      ∀ m, eventName ev = some m → ∃ g ∈ gs, m = target_name g := by
  intro gs
  induction gs with
  | nil => intro env ev hev; simp [writeGroups] at hev
  | cons g gs ih =>
    intro env ev hev
    unfold writeGroups at hev
    cases hf : filter_by_type_and_date tmp g.type g.date g.time with
    | error e => rw [hf] at hev; simp at hev
    | ok fd =>
      rw [hf] at hev
      dsimp only at hev
      rcases List.mem_cons.mp hev with rfl | hev'
      · exact ⟨rfl, fun m hm => absurd hm (by simp [eventName])⟩
      rcases List.mem_append.mp hev' with h2 | h3
      · rcases List.mem_append.mp h2 with hc2 | ha2
        · rcases create_append_blob_events _ _ ev hc2 with h | h <;> subst h <;>
            refine ⟨rfl, fun m hm => ?_⟩ <;> simp [eventName] at hm <;>
            exact ⟨g, List.mem_cons_self g gs, hm.symm⟩
        · rcases append_data_to_blob_events _ _ _ ev ha2 with ⟨m0, h⟩ | h | ⟨p, pl, h⟩ | ⟨p, pl, h⟩ <;>
            subst h <;> refine ⟨rfl, fun m hm => ?_⟩ <;> simp [eventName] at hm
          · exact ⟨g, List.mem_cons_self g gs, hm.symm⟩
          · exact ⟨g, List.mem_cons_self g gs, hm.symm⟩
          · exact ⟨g, List.mem_cons_self g gs, hm.symm⟩
      · obtain ⟨hd, hn⟩ := ih _ ev h3
        refine ⟨hd, fun m hm => ?_⟩
        obtain ⟨g', hg', hm'⟩ := hn m hm
        exact ⟨g', List.mem_cons_of_mem g hg', hm'⟩

theorem writeGroups_cfg (tmp : List Record) :
    ∀ (gs : List PartKey) (env : Env),
      (writeGroups env tmp gs).2.1.listOk = env.listOk ∧
      (writeGroups env tmp gs).2.1.createOk = env.createOk ∧
      (writeGroups env tmp gs).2.1.appendOk = env.appendOk := by
  intro gs
  induction gs with
  | nil => intro env; exact ⟨rfl, rfl, rfl⟩
  | cons g gs ih =>
    intro env
    unfold writeGroups
    cases hf : filter_by_type_and_date tmp g.type g.date g.time with
    | error e => exact ⟨rfl, rfl, rfl⟩
    | ok fd =>
      dsimp only
      obtain ⟨i1, i2, i3⟩ := ih (append_data_to_blob (create_append_blob env (target_name g)).1
        (target_name g) fd).1
      obtain ⟨a1, a2, a3⟩ := append_data_to_blob_cfg (create_append_blob env (target_name g)).1
        (target_name g) fd
      obtain ⟨c1, c2, c3⟩ := create_append_blob_cfg env (target_name g)
      refine ⟨?_, ?_, ?_⟩
      · rw [i1, a1, c1]
      · rw [i2, a2, c2]
      · rw [i3, a3, c3]

theorem writeGroups_ok (tmp : List Record)
    (hall : ∀ r ∈ tmp, ∃ k, parseKey r = .ok k) :
    ∀ (gs : List PartKey) (env : Env), (writeGroups env tmp gs).1 = .ok () := by
  intro gs
  induction gs with
  | nil => intro env; rfl
  | cons g gs ih =>
    intro env
    unfold writeGroups
    rw [filter_by_type_and_date_eq tmp hall g.type g.date g.time]
    dsimp only
    exact ih _

theorem writeGroups_packetsFor (tmp : List Record)
    (hall : ∀ r ∈ tmp, ∃ k, parseKey r = .ok k) :
    ∀ (gs : List PartKey) (env : Env) (g : PartKey) (first : Record) (rest : List Record),
      g ∈ gs → (gs.map target_name).Nodup →
      filter_by_type_and_date tmp g.type g.date g.time = .ok (first :: rest) →
      1 ≤ packetSize first → env.createOk (target_name g) = true →
      packetsFor (target_name g) (writeGroups env tmp gs).2.2 =
        sliceChunks (packetSize first) (first :: rest) := by
  intro gs
  induction gs with
  | nil => intro env g first rest hg; simp at hg
  | cons g' gs ih =>
    intro env g first rest hg hnd hfl hps hcr
    unfold writeGroups
    cases hf : filter_by_type_and_date tmp g'.type g'.date g'.time with
    | error e =>
      exfalso
      rw [filter_by_type_and_date_eq tmp hall g'.type g'.date g'.time] at hf
      cases hf
    | ok fd =>
      dsimp only
      rw [packetsFor_append, packetsFor_append, packetsFor_logInfo_cons]
      rcases List.mem_cons.mp hg with rfl | hgs
      · -- the head group is the one under scrutiny
        have hfd : fd = first :: rest := by
          rw [hf] at hfl
          cases hfl
          rfl
        subst hfd
        have hnotin : target_name g ∉ gs.map target_name := by
          simpa using (List.nodup_cons.mp hnd).1
        have htail : packetsFor (target_name g)
            (writeGroups (append_data_to_blob (create_append_blob env (target_name g)).1
              (target_name g) (first :: rest)).1 tmp gs).2.2 = [] := by
          apply packetsFor_nil_of
          intro ev hev hm
          obtain ⟨_, hn⟩ := writeGroups_events tmp gs _ ev hev
          obtain ⟨g'', hg'', hm'⟩ := hn (target_name g) hm
          exact hnotin (hm' ▸ List.mem_map_of_mem target_name hg'')
        have hcr1 : (create_append_blob env (target_name g)).1.createOk (target_name g) = true := by
          obtain ⟨_, c2, _⟩ := create_append_blob_cfg env (target_name g)
          rw [c2]; exact hcr
        rw [packetsFor_create_append_blob, htail,
          packetsFor_append_data_self _ _ first rest hcr1 hps]
        simp
      · -- the group under scrutiny sits in the tail
        have hne : target_name g' ≠ target_name g := by
          intro hc
          exact (List.nodup_cons.mp hnd).1 (hc ▸ List.mem_map_of_mem target_name hgs)
        have hcr1 : (append_data_to_blob (create_append_blob env (target_name g')).1
            (target_name g') fd).1.createOk (target_name g) = true := by
          obtain ⟨_, a2, _⟩ := append_data_to_blob_cfg (create_append_blob env (target_name g')).1
            (target_name g') fd
          obtain ⟨_, c2, _⟩ := create_append_blob_cfg env (target_name g')
          rw [a2, c2]; exact hcr
        rw [packetsFor_create_append_blob,
          packetsFor_append_data_other _ _ _ fd hne,
          ih _ g first rest hgs (List.nodup_cons.mp hnd).2 hfl hps hcr1]
        simp

/-! ### Lemmas: flush, stop, dispatch -/

theorem write_buffer_to_blob_error (env : Env) (s : WriterState) (e' : Err)
    (hp : process_input_array s.buffer = .error e') :
    write_buffer_to_blob env s =
      (.error e', env, { s with buffer := [] }, [Event.drained s.buffer]) := by
  unfold write_buffer_to_blob clear_buffer
  dsimp only
  rw [hp]

theorem write_buffer_to_blob_ok_parts (env : Env) (s : WriterState) (gs : List PartKey)
    (hp : process_input_array s.buffer = .ok gs) :
    write_buffer_to_blob env s =
      ((writeGroups env s.buffer gs).1, (writeGroups env s.buffer gs).2.1,
        { s with buffer := [] },
        Event.drained s.buffer :: (writeGroups env s.buffer gs).2.2) := by
  unfold write_buffer_to_blob clear_buffer
  dsimp only
  rw [hp]

theorem write_buffer_to_blob_buffer_empty (env : Env) (s : WriterState) :
    (write_buffer_to_blob env s).2.2.1 = { s with buffer := [] } := by
  cases hp : process_input_array s.buffer with
  | error e => rw [write_buffer_to_blob_error env s e hp]
  | ok gs => rw [write_buffer_to_blob_ok_parts env s gs hp]

theorem dictGet_map_update (writers : List (String × WriterState)) (tid : String)
    (msg : Record) :
    ∀ w, dictGet tid writers = some w →
      dictGet tid (writers.map (fun p => if p.1 = tid then (p.1, message_handler p.2 msg) else p))
        = some (message_handler w msg) := by
  induction writers with
  | nil => intro w h; cases h
  | cons p rest ih =>
    intro w h
    obtain ⟨k, v⟩ := p
    by_cases hk : k = tid
    · simp only [dictGet, if_pos hk] at h
      cases h
      simp only [List.map_cons]
      rw [if_pos hk]
      simp only [dictGet, if_pos hk]
    · simp only [dictGet, if_neg hk] at h
      simp only [List.map_cons]
      rw [if_neg hk]
      simp only [dictGet, if_neg hk]
      exact ih w h

theorem dictGet_map_other (writers : List (String × WriterState)) (tid : String)
    (msg : Record) (tid' : String) (hne : tid' ≠ tid) :
    dictGet tid' (writers.map (fun p => if p.1 = tid then (p.1, message_handler p.2 msg) else p))
      = dictGet tid' writers := by
  induction writers with
  | nil => rfl
  | cons p rest ih =>
    obtain ⟨k, v⟩ := p
    by_cases hk : k = tid
    · have hk' : ¬ k = tid' := by rw [hk]; intro hc; exact hne hc.symm
      simp only [List.map_cons]
      rw [if_pos hk]
      simp only [dictGet, if_neg hk']
      exact ih
    · simp only [List.map_cons]
      rw [if_neg hk]
      simp only [dictGet]
      by_cases hk2 : k = tid'
      · rw [if_pos hk2, if_pos hk2]
      · rw [if_neg hk2, if_neg hk2]
        exact ih

theorem packetsFor_drained_cons (name : String) (snap : List Record) (evs : List Event) :
    packetsFor name (Event.drained snap :: evs) = packetsFor name evs := rfl

theorem writeGroups_logInfo (tmp : List Record)
    (hall : ∀ r ∈ tmp, ∃ k, parseKey r = .ok k) :
    ∀ (gs : List PartKey) (env : Env) (g : PartKey), g ∈ gs →
      Event.logInfo ("Writing blob: " ++ target_name g) ∈ (writeGroups env tmp gs).2.2 := by
  intro gs
  induction gs with
  | nil => intro env g hg; simp at hg
  | cons g' gs ih =>
    intro env g hg
    unfold writeGroups
    rw [filter_by_type_and_date_eq tmp hall g'.type g'.date g'.time]
    dsimp only
    rcases List.mem_cons.mp hg with rfl | hgs
    · exact List.mem_append_left _ (List.mem_append_left _ (List.mem_cons_self _ _))
    · exact List.mem_append_right _ (ih _ g hgs)

theorem appendCore_packets (env1 : Env) (n : String) (evs1 : List Event)
    (hevs : ∀ x ∈ evs1, x = Event.created n) (first : Record) (rest : List Record)
    (hps : ¬ packetSize first = 0) :
    ∀ ev ∈ (appendCore env1 n evs1 (first :: rest)).2, ∀ name p pl,
      (ev = Event.appended name p pl ∨ ev = Event.appendFailed name p pl) →
      p ∈ sliceChunks (packetSize first) (first :: rest) := by
  simp only [appendCore]
  rw [if_neg hps]
  intro ev hev name p pl hshape
  rcases List.mem_append.mp hev with h1 | h2
  · have := hevs ev h1
    subst this
    rcases hshape with h | h <;> cases h
  · obtain ⟨packet, hpk, hf⟩ := List.mem_map.mp h2
    split at hf
    · rcases hshape with h | h <;> rw [← hf] at h <;> cases h
      exact hpk
    · rcases hshape with h | h <;> rw [← hf] at h <;> cases h
      exact hpk

theorem packetSize_eq_zero_of_big (first : Record)
    (h : max_packet_size_bytes < dumpsBytes first) : packetSize first = 0 :=
  Nat.div_eq_of_lt h

/-! ### Claim theorems -/

/-- C1 (counterexample): the flush of a snapshot holding the well-formed
`hb1` followed by the malformed `badRec` (missing `type`) does not skip the
malformed record and write the rest: it raises `KeyError` out of
`process_input_array` and performs no storage call at all — the whole
flush aborts, contradicting the claim. -/
theorem c1_counterexample :
    (write_buffer_to_blob envOK sBad).1 = .error (.keyError "type") ∧
    (write_buffer_to_blob envOK sBad).2.2.2 = [Event.drained [hb1, badRec]] := by
  constructor <;> decide

/-- C1 (amended): a record with a missing or unparsable required field
makes the whole flush abort with the exception raised while partitioning:
the buffer has already been drained, no group is formed, and no storage
call is issued — the remaining well-formed records of the snapshot are
lost rather than written. -/
theorem c1_amended (env : Env) (s : WriterState)
    (hbad : ∃ r ∈ s.buffer, ∃ e, parseKey r = .error e) :
    ∃ e', write_buffer_to_blob env s =
      (.error e', env, { s with buffer := [] }, [Event.drained s.buffer]) := by
  obtain ⟨e', hp⟩ := processGo_error_of_bad s.buffer hbad [] []
  exact ⟨e', write_buffer_to_blob_error env s e' hp⟩

/-- Witness for C1 (amended), at the concrete snapshot `[hb1, badRec]`. -/
theorem c1_amended_witness :
    ∃ e', write_buffer_to_blob envOK sBad =
      (.error e', envOK, { sBad with buffer := [] }, [Event.drained sBad.buffer]) :=
  c1_amended envOK sBad ⟨badRec, by decide, .keyError "type", by decide⟩

/-- C2 (counterexample): for the record `bigRec`, whose serialization is
one byte over the 3 MiB ceiling, the computed packet size is `0`, not the
claimed minimum of `1`; the slicing loop raises `ValueError`, which the
outer handler logs, and the record is not sent alone in its own append
call — no append call happens at all. -/
theorem c2_counterexample :
    packetSize bigRec = 0 ∧
    (append_data_to_blob envB "b.fd" [bigRec]).2 = [Event.logError "append-abort:range:b.fd"] := by
  have hbig : max_packet_size_bytes < dumpsBytes bigRec := by
    have h1 : dumpsBytes bigRec = 3 * 1024 * 1024 + 1 :=
      utf8_replicate_a (3 * 1024 * 1024 + 1)
    rw [h1]
    unfold max_packet_size_bytes
    omega
  have hps : packetSize bigRec = 0 := packetSize_eq_zero_of_big bigRec hbig
  refine ⟨hps, ?_⟩
  have he : ensure_blob envB "b.fd" = some (envB, []) := rfl
  unfold append_data_to_blob
  rw [he]
  show (appendCore envB "b.fd" [] [bigRec]).2 = _
  simp only [appendCore]
  rw [if_pos hps]
  decide

/-- C2 (amended): `packet_size` has no lower bound in the code.  When the
first record's serialization exceeds `max_packet_size_bytes`, the computed
packet size is `0`; `range(0, len(data), 0)` raises `ValueError`, the
outer handler catches and logs it, and the entire group is dropped: no
append call (successful or failed) is issued. -/
theorem c2_amended (env : Env) (n : String) (first : Record) (rest : List Record)
    (hbig : max_packet_size_bytes < dumpsBytes first) :
    packetSize first = 0 ∧
    List.filter isAppendCall (append_data_to_blob env n (first :: rest)).2 = [] := by
  have hps : packetSize first = 0 := packetSize_eq_zero_of_big first hbig
  refine ⟨hps, ?_⟩
  unfold append_data_to_blob
  cases he : ensure_blob env n with
  | none => rfl
  | some pr =>
    obtain ⟨_, _, _, hevs⟩ := ensure_blob_cfg env n pr.1 pr.2 (by rw [he])
    show List.filter isAppendCall (appendCore pr.1 n pr.2 (first :: rest)).2 = []
    simp only [appendCore]
    rw [if_pos hps]
    rcases hevs with h0 | h0 <;> rw [h0] <;> rfl

/-- Witness for C2 (amended), at the oversized record `bigRec`. -/
theorem c2_amended_witness :
    packetSize bigRec = 0 ∧
    List.filter isAppendCall (append_data_to_blob envB "b.fd" [bigRec]).2 = [] :=
  c2_amended envB "b.fd" bigRec []
    (by
      have hbig : dumpsBytes bigRec = 3 * 1024 * 1024 + 1 :=
        utf8_replicate_a (3 * 1024 * 1024 + 1)
      rw [hbig]
      unfold max_packet_size_bytes
      omega)

/-- C3 (confirmed): over any sequence of enqueues (`message_handler`) and
drains (`clear_buffer`), the drained snapshots concatenated in flush
order, followed by the records still buffered, are exactly the initial
buffer followed by every enqueued record in arrival order — so the drain
neither drops nor duplicates a record, and a record enqueued before a
drain lands in exactly that drain's snapshot. -/
theorem c3_drain_exactly_once :
    ∀ (ops : List BufOp) (s : WriterState),
      ((runWriterOps ops s).2).flatten ++ (runWriterOps ops s).1.buffer =
        s.buffer ++ enqueuedOf ops := by
  intro ops
  induction ops with
  | nil => intro s; simp [runWriterOps, enqueuedOf]
  | cons op ops ih =>
    intro s
    cases op with
    | enq r =>
      show ((runWriterOps ops (message_handler s r)).2).flatten ++
          (runWriterOps ops (message_handler s r)).1.buffer = s.buffer ++ r :: enqueuedOf ops
      rw [ih (message_handler s r)]
      simp [message_handler]
    | flush =>
      show ((s.buffer :: (runWriterOps ops { s with buffer := [] }).2).flatten) ++
          (runWriterOps ops { s with buffer := [] }).1.buffer = s.buffer ++ enqueuedOf ops
      rw [List.flatten_cons, List.append_assoc, ih { s with buffer := [] }]
      rfl

/-- C4 (counterexample): with a backend whose every `append_block` fails,
`stop()` on a writer holding three records performs the final flush, the
append fails (an `appendFailed` event occurs), yet `stop` returns the very
same `ok ()` as a clean stop — the storage failure is swallowed, not
surfaced. -/
theorem c4_counterexample :
    (stop envFail sHB).1 = .ok () ∧
    Event.appendFailed "heartbeat.20240101.08.fd" [hb1, hb2, hb3] "h1\nh2\nh3\n" ∈
      (stop envFail sHB).2.2.2 := by
  constructor <;> decide

/-- C4 (amended): as long as every buffered record parses, `stop()`
returns `ok ()` regardless of the storage backend — create and append
failures during the final flush are caught and logged inside the writer
and never surface to the caller of `stop`; only a malformed-record
exception can propagate. -/
theorem c4_amended (env : Env) (s : WriterState) (ks : List PartKey)
    (hks : parseKeys s.buffer = .ok ks) :
    (stop env s).1 = .ok () := by
  have hall : ∀ r ∈ s.buffer, ∃ k, parseKey r = .ok k := parseKeys_all_ok s.buffer ks hks
  obtain ⟨gs, hp⟩ := processGo_ok_of_all s.buffer hall [] []
  show (write_buffer_to_blob env { s with running := false, timer := false }).1 = .ok ()
  rw [write_buffer_to_blob_ok_parts env { s with running := false, timer := false } gs hp]
  exact writeGroups_ok _ hall gs env

/-- Witness for C4 (amended): the all-appends-fail backend still yields a
clean `ok ()` from `stop`. -/
theorem c4_amended_witness : (stop envFail sHB).1 = .ok () :=
  c4_amended envFail sHB
    [⟨"heartbeat", "20240101", "08"⟩, ⟨"heartbeat", "20240101", "08"⟩,
      ⟨"heartbeat", "20240101", "08"⟩] (by decide)

/-- C5 (counterexample): with the one-byte record `tinyRec` first in the
group, the computed packet size is huge, so the oversized `bigRec` rides
in the same packet: a single append call whose payload exceeds the 3 MiB
ceiling — packets after the first record are not bounded by the ceiling
when record sizes differ. -/
theorem c5_counterexample :
    Event.appended "b.fd" [tinyRec, bigRec] (packet_payload [tinyRec, bigRec]) ∈
      (append_data_to_blob envB "b.fd" [tinyRec, bigRec]).2 ∧
    max_packet_size_bytes < (packet_payload [tinyRec, bigRec]).utf8ByteSize := by
  constructor
  · have he : ensure_blob envB "b.fd" = some (envB, []) := rfl
    unfold append_data_to_blob
    rw [he]
    show _ ∈ (appendCore envB "b.fd" [] [tinyRec, bigRec]).2
    simp only [appendCore]
    have hps0 : ¬ packetSize tinyRec = 0 := by decide
    rw [if_neg hps0]
    have hsl : sliceChunks (packetSize tinyRec) [tinyRec, bigRec] = [[tinyRec, bigRec]] := by
      rw [sliceChunks_cons]
      have h1 : [bigRec].take (packetSize tinyRec - 1) = [bigRec] :=
        List.take_of_length_le (by decide)
      have h2 : [bigRec].drop (packetSize tinyRec - 1) = [] :=
        List.drop_of_length_le (by decide)
      rw [h1, h2]
      rfl
    rw [hsl]
    show Event.appended "b.fd" [tinyRec, bigRec] (packet_payload [tinyRec, bigRec]) ∈
      ([] : List Event) ++ [Event.appended "b.fd" [tinyRec, bigRec]
        (packet_payload [tinyRec, bigRec])]
    simp
  · have hpl : packet_payload [tinyRec, bigRec] = ("t" ++ ("\n" ++ bigStr)) ++ "\n" := rfl
    rw [hpl, utf8_append, utf8_append, utf8_append]
    have hbig : bigStr.utf8ByteSize = 3 * 1024 * 1024 + 1 :=
      utf8_replicate_a (3 * 1024 * 1024 + 1)
    have h1 : ("t" : String).utf8ByteSize = 1 := by decide
    have h2 : ("\n" : String).utf8ByteSize = 1 := by decide
    rw [hbig, h1, h2]
    unfold max_packet_size_bytes
    omega

/-- C5 (amended): what the code guarantees per append call is a bound on
the number of records, not on the bytes: each packet holds at most
`packetSize first` records, and that packet size times the first record's
byte size stays under the ceiling.  Payload bytes can exceed the ceiling
when later records are larger than the first. -/
theorem c5_amended (env : Env) (n : String) (first : Record) (rest : List Record)
    (ev : Event) (name : String) (p : List Record) (pl : String)
    (hps : 1 ≤ packetSize first)
    (hev : ev ∈ (append_data_to_blob env n (first :: rest)).2)
    (hshape : ev = Event.appended name p pl ∨ ev = Event.appendFailed name p pl) :
    p.length ≤ packetSize first ∧
    packetSize first * dumpsBytes first ≤ max_packet_size_bytes := by
  constructor
  · unfold append_data_to_blob at hev
    cases he : ensure_blob env n with
    | none =>
      rw [he] at hev
      simp at hev
      rcases hshape with h | h <;> rw [hev] at h <;> cases h
    | some pr =>
      rw [he] at hev
      obtain ⟨_, _, _, hevs⟩ := ensure_blob_cfg env n pr.1 pr.2 (by rw [he])
      have hmem1 : ∀ x ∈ pr.2, x = Event.created n := by
        intro x hx
        rcases hevs with h0 | h0 <;> rw [h0] at hx <;> simp at hx
        exact hx
      have hpmem : p ∈ sliceChunks (packetSize first) (first :: rest) :=
        appendCore_packets pr.1 n pr.2 hmem1 first rest (by omega) ev hev name p pl hshape
      exact sliceChunks_length_le (packetSize first) hps (first :: rest) p hpmem
  · exact Nat.div_mul_le_self max_packet_size_bytes (dumpsBytes first)

/-- Witness for C5 (amended): the two-heartbeat packet respects the
record-count bound. -/
theorem c5_amended_witness :
    ([hb1, hb2] : List Record).length ≤ packetSize hb1 ∧
    packetSize hb1 * dumpsBytes hb1 ≤ max_packet_size_bytes :=
  c5_amended envOK "b.fd" hb1 [hb2]
    (Event.appended "b.fd" [hb1, hb2] (packet_payload [hb1, hb2]))
    "b.fd" [hb1, hb2] (packet_payload [hb1, hb2]) (by decide) (by decide) (Or.inl rfl)

/-- C6 (confirmed): dispatching to an unregistered tenant raises
`KeyError` and leaves the writer mapping (hence every buffer) untouched;
dispatching to a registered tenant returns cleanly, appends the record to
exactly that tenant's buffer, and leaves every other tenant's writer
unchanged. -/
theorem c6_dispatch (writers : List (String × WriterState)) (tid : String) (msg : Record) :
    (dictGet tid writers = none →
      dispatch_blob_message writers tid msg =
        (.error (.keyError ("No BlobWriter for tenant " ++ tid)), writers)) ∧
    (∀ w, dictGet tid writers = some w →
      (dispatch_blob_message writers tid msg).1 = .ok () ∧
      dictGet tid (dispatch_blob_message writers tid msg).2 = some (message_handler w msg) ∧
      (∀ tid', tid' ≠ tid →
        dictGet tid' (dispatch_blob_message writers tid msg).2 = dictGet tid' writers)) := by
  constructor
  · intro hnone
    unfold dispatch_blob_message
    rw [hnone]
  · intro w hw
    unfold dispatch_blob_message
    rw [hw]
    refine ⟨rfl, ?_, ?_⟩
    · exact dictGet_map_update writers tid msg w hw
    · intro tid' hne
      exact dictGet_map_other writers tid msg tid' hne

/-- Witness for C6 on the two-tenant registry `regA`: unknown tenant `zz`
errors and mutates nothing; dispatch to `t1` enqueues into `t1` only. -/
theorem c6_witness :
    dispatch_blob_message regA "zz" hb2 =
      (.error (.keyError ("No BlobWriter for tenant " ++ "zz")), regA) ∧
    (dispatch_blob_message regA "t1" hb2).1 = .ok () ∧
    dictGet "t1" (dispatch_blob_message regA "t1" hb2).2 =
      some (message_handler ⟨[], true, false⟩ hb2) ∧
    dictGet "t2" (dispatch_blob_message regA "t1" hb2).2 = dictGet "t2" regA := by
  have h1 := (c6_dispatch regA "zz" hb2).1 (by decide)
  have h2 := (c6_dispatch regA "t1" hb2).2 ⟨[], true, false⟩ (by decide)
  exact ⟨h1, h2.1, h2.2.1, h2.2.2 "t2" (by decide)⟩

/-- C7 (confirmed): partitioning a well-formed snapshot is deterministic
and order-independent — the group list's dedup ids are exactly the
first-seen-ordered deduplication of the snapshot's record ids, and any
two records of the snapshot with the same extracted key belong to exactly
the same filter groups, regardless of position. -/
theorem c7_partitioning (tmp : List Record) (ks gs : List PartKey)
    (hks : parseKeys tmp = .ok ks) (hp : process_input_array tmp = .ok gs) :
    gs.map mkUid = (ks.map mkUid).eraseDups ∧
    (∀ r r' k, r ∈ tmp → r' ∈ tmp → parseKey r = .ok k → parseKey r' = .ok k →
      ∀ g ∈ gs, ∃ fl, filter_by_type_and_date tmp g.type g.date g.time = .ok fl ∧
        (r ∈ fl ↔ r' ∈ fl)) := by
  have hall : ∀ r ∈ tmp, ∃ k, parseKey r = .ok k := parseKeys_all_ok tmp ks hks
  constructor
  · rw [eraseDups_eq_fsDedup]
    have h := processGo_map_uid tmp ks hks [] [] gs hp
    simpa using h
  · intro r r' k hr hr' hk hk' g hg
    refine ⟨_, filter_by_type_and_date_eq tmp hall g.type g.date g.time, ?_⟩
    constructor
    · intro hm
      have hc := (List.mem_filter.mp hm).2
      rw [hk] at hc
      refine List.mem_filter.mpr ⟨hr', ?_⟩
      rw [hk']
      exact hc
    · intro hm
      have hc := (List.mem_filter.mp hm).2
      rw [hk'] at hc
      refine List.mem_filter.mpr ⟨hr, ?_⟩
      rw [hk]
      exact hc

/-- Witness for C7 on the three same-hour heartbeat records. -/
theorem c7_witness :
    ∃ fl, filter_by_type_and_date [hb1, hb2, hb3] "heartbeat" "20240101" "08" = .ok fl ∧
      (hb1 ∈ fl ↔ hb2 ∈ fl) :=
  (c7_partitioning [hb1, hb2, hb3]
      [⟨"heartbeat", "20240101", "08"⟩, ⟨"heartbeat", "20240101", "08"⟩,
        ⟨"heartbeat", "20240101", "08"⟩]
      [⟨"heartbeat", "20240101", "08"⟩] (by decide) (by decide)).2 hb1 hb2
    ⟨"heartbeat", "20240101", "08"⟩ (by decide) (by decide) (by decide) (by decide)
    ⟨"heartbeat", "20240101", "08"⟩ (by decide)

/-- C8 (confirmed): `stop` clears `running`, cancels the timer, performs
exactly one synchronous drain (exactly one `drained` event, carrying the
pre-stop buffer), and leaves the buffer empty — whatever the backend or
the records. -/
theorem c8_stop (env : Env) (s : WriterState) :
    (stop env s).2.2.1.buffer = [] ∧
    (stop env s).2.2.1.running = false ∧
    (stop env s).2.2.1.timer = false ∧
    List.countP isDrained (stop env s).2.2.2 = 1 ∧
    Event.drained s.buffer ∈ (stop env s).2.2.2 := by
  have hst : stop env s = write_buffer_to_blob env { s with running := false, timer := false } :=
    rfl
  rw [hst]
  cases hp : process_input_array s.buffer with
  | error e =>
    rw [write_buffer_to_blob_error env { s with running := false, timer := false } e hp]
    refine ⟨rfl, rfl, rfl, ?_, ?_⟩
    · simp [List.countP_cons, isDrained]
    · simp
  | ok gs =>
    rw [write_buffer_to_blob_ok_parts env { s with running := false, timer := false } gs hp]
    refine ⟨rfl, rfl, rfl, ?_, ?_⟩
    · rw [List.countP_cons]
      have h0 : List.countP isDrained
          (writeGroups env { s with running := false, timer := false }.buffer gs).2.2 = 0 := by
        rw [List.countP_eq_zero]
        intro ev hev
        have := (writeGroups_events _ gs env ev hev).1
        simp [this]
      rw [h0]
      rfl
    · exact List.mem_cons_self _ _

/-- C9 (confirmed): every storage call of a flush addresses a blob named
`target_name` of one of the snapshot's partition keys — i.e.
`"{type}.{date}.{hour}.fd"` — and each partition group is written (and
logged) under exactly its key's name. -/
theorem c9_target_names (env : Env) (s : WriterState) (gs : List PartKey)
    (hp : process_input_array s.buffer = .ok gs) :
    (∀ ev ∈ (write_buffer_to_blob env s).2.2.2, ∀ m, eventName ev = some m →
      ∃ g ∈ gs, m = target_name g) ∧
    (∀ g ∈ gs, Event.logInfo ("Writing blob: " ++ target_name g) ∈
      (write_buffer_to_blob env s).2.2.2) := by
  have hall : ∀ r ∈ s.buffer, ∃ k, parseKey r = .ok k := processGo_all_ok s.buffer [] [] gs hp
  rw [write_buffer_to_blob_ok_parts env s gs hp]
  constructor
  · intro ev hev m hm
    rcases List.mem_cons.mp hev with rfl | hev'
    · simp [eventName] at hm
    · exact (writeGroups_events s.buffer gs env ev hev').2 m hm
  · intro g hg
    exact List.mem_cons_of_mem _ (writeGroups_logInfo s.buffer hall gs env g hg)

/-- Witness for C9: the heartbeat snapshot writes (and logs) the target
`heartbeat.20240101.08.fd`. -/
theorem c9_witness :
    Event.logInfo ("Writing blob: " ++ target_name ⟨"heartbeat", "20240101", "08"⟩) ∈
      (write_buffer_to_blob envOK sHB).2.2.2 :=
  (c9_target_names envOK sHB [⟨"heartbeat", "20240101", "08"⟩] (by decide)).2
    ⟨"heartbeat", "20240101", "08"⟩ (by decide)

/-- C10 (counterexample): the snapshot `[cr1, cr2]` holds distinct
partition keys `("x","D","a-b")` and `("x-D","a","b")` whose dash-joined
dedup ids collide (`"x-D-a-b"`); `cr2`'s packet size is positive and the
snapshot's records carrying its key are `[cr2]`, yet the flush issues no
storage call at all for that key's target — the records are silently
dropped, not sent. -/
theorem c10_counterexample :
    1 ≤ packetSize cr2 ∧
    filter_by_type_and_date [cr1, cr2] "x-D" "a" "b" = .ok [cr2] ∧
    sCol.buffer = [cr1, cr2] ∧
    (∀ ev ∈ (write_buffer_to_blob envOK sCol).2.2.2,
      eventName ev ≠ some (target_name ⟨"x-D", "a", "b"⟩)) := by
  refine ⟨by decide, by decide, by decide, by decide⟩

/-- C10 (amended): for every partition group actually formed from the
snapshot — additionally assuming the groups' target names are pairwise
distinct and the create call for this group's target succeeds — the
record slices of the append calls addressed to that group's target,
concatenated in call order, are exactly the snapshot's records carrying
that key, each once, in snapshot order. -/
theorem c10_amended (env : Env) (s : WriterState) (ks gs : List PartKey) (g : PartKey)
    (first : Record) (rest : List Record)
    (hks : parseKeys s.buffer = .ok ks)
    (hp : process_input_array s.buffer = .ok gs)
    (hnd : (gs.map target_name).Nodup)
    (hg : g ∈ gs)
    (hfl : filter_by_type_and_date s.buffer g.type g.date g.time = .ok (first :: rest))
    (hps : 1 ≤ packetSize first)
    (hcr : env.createOk (target_name g) = true) :
    (packetsFor (target_name g) (write_buffer_to_blob env s).2.2.2).flatten = first :: rest := by
  have hall := parseKeys_all_ok s.buffer ks hks
  rw [write_buffer_to_blob_ok_parts env s gs hp]
  rw [packetsFor_drained_cons]
  rw [writeGroups_packetsFor s.buffer hall gs env g first rest hg hnd hfl hps hcr]
  exact sliceChunks_join (packetSize first) hps (first :: rest)

/-- Witness for C10 (amended): the heartbeat snapshot's single group is
delivered in full and in order to `heartbeat.20240101.08.fd`. -/
theorem c10_amended_witness :
    (packetsFor (target_name ⟨"heartbeat", "20240101", "08"⟩)
      (write_buffer_to_blob envOK sHB).2.2.2).flatten = [hb1, hb2, hb3] :=
  c10_amended envOK sHB
    [⟨"heartbeat", "20240101", "08"⟩, ⟨"heartbeat", "20240101", "08"⟩,
      ⟨"heartbeat", "20240101", "08"⟩]
    [⟨"heartbeat", "20240101", "08"⟩] ⟨"heartbeat", "20240101", "08"⟩ hb1 [hb2, hb3]
    (by decide) (by decide) (by decide) (by decide) (by decide) (by decide) rfl

end BlobSpec
